import Mathlib

/-!
Verification of the portfolio-dashboard allocation engine
(src/Streamlit_dashboard.py) against its specification.

The numeric computations of the script are embedded over exact rationals
(the specification explicitly allows reading the floating-point arithmetic
"exactly, over a rational embedding").  A snapshot (one row of the weight
table, the pandas Series obtained from `df.loc[date]`) is embedded as an
association list `List (String × ℚ)` of ticker/weight pairs; its pandas
index is the list of keys.
-/

namespace PortfolioDashboard

/-- ASCII lowercasing of a string, the embedding of Python's `t.lower()`
as applied to ticker symbols. -/
def lowerStr (s : String) : String := String.mk (s.data.map Char.toLower)

/-- The test `t.lower() == "cash"` used in `get_equal_weight_targets`
(source lines 20 and 22): case-insensitive match against "cash". -/
def isCash (t : String) : Bool := lowerStr t == "cash"

/-- Source line 20: `non_cash = [t for t in snapshot.index if t.lower() != "cash"]`. -/
def non_cash (ks : List String) : List String := ks.filter (fun t => !isCash t)

/-- Source line 21: `equal_wt = 1 / len(non_cash) if non_cash else 0`. -/
def equal_wt (ks : List String) : ℚ :=
  if non_cash ks = [] then 0 else 1 / ((non_cash ks).length : ℚ)

/-- Source lines 19-22, `get_equal_weight_targets(snapshot)`: the dict
comprehension `{t: (0.0 if t.lower() == "cash" else equal_wt) for t in
snapshot.index}`.  The function only reads `snapshot.index`, so the
embedding takes the key list. -/
def get_equal_weight_targets (ks : List String) : List (String × ℚ) :=
  ks.map (fun t => (t, if isCash t then 0 else equal_wt ks))

/-- The value the target dict assigns to ticker `t` of a snapshot with
key list `ks`. -/
def targetVal (ks : List String) (t : String) : ℚ :=
  if isCash t then 0 else equal_wt ks

/-- The pandas index (key list) of an embedded Series. -/
def keys {β : Type} (snap : List (String × β)) : List String := snap.map Prod.fst

/-- The key union on which pandas aligns two Series before an arithmetic
operation: the left index followed by the labels of the right index not
present on the left. -/
def keyUnion (a b : List (String × ℚ)) : List String :=
  keys a ++ (keys b).filter (fun k => !(keys a).contains k)

/-- Pandas Series subtraction `a - b` as used at source lines 43 and 215
(`snapshot - pd.Series(TARGET_WEIGHTS)`): the two Series are aligned on
the union of their indexes, a label present on both sides gets the
difference of the two values, and a label missing on either side gets
NaN (embedded as `none`).  No error is ever raised. -/
def seriesSub (a b : List (String × ℚ)) : List (String × Option ℚ) :=
  (keyUnion a b).map (fun k =>
    (k, match a.lookup k, b.lookup k with
        | some x, some y => some (x - y)
        | _, _ => none))

/-- Source line 43, `drift = (snapshot - pd.Series(TARGET_WEIGHTS))`, in the
collapsed elementwise form valid because the target dict is built from the
very same snapshot index (the collapse is proved against `seriesSub` in
`C7_drift_alignment`). -/
def drift_vals (snap : List (String × ℚ)) : List (String × ℚ) :=
  snap.map (fun p => (p.1, p.2 - targetVal (keys snap) p.1))

/-- Source line 44: `needs_rebal = (drift.abs() > 0.02).any()` with the
hard-coded threshold 0.02. -/
def needs_rebal (snap : List (String × ℚ)) : Bool :=
  (drift_vals snap).any (fun p => decide (|p.2| > 2/100))

/-- The same computation with the drift threshold exposed as a parameter. -/
def needs_rebal_with (thr : ℚ) (snap : List (String × ℚ)) : Bool :=
  (drift_vals snap).any (fun p => decide (|p.2| > thr))

/-- Source line 215:
`dollar_drift = (trade_snapshot - pd.Series(TARGET_WEIGHTS)) * portfolio_val_trade`,
again in the collapsed elementwise form (identical key sets). -/
def dollar_drift (snap : List (String × ℚ)) (V : ℚ) : List (String × ℚ) :=
  snap.map (fun p => (p.1, (p.2 - targetVal (keys snap) p.1) * V))

/-- One trade suggestion as assembled in the loop of source lines 218-225:
an action ("Buy" or "Sell"), the dollar amount `abs(dv)`, and the ticker. -/
structure Sug where
  action : String
  amount : ℚ
  ticker : String
deriving DecidableEq

/-- The loop body of source lines 218-225 over a list of
(ticker, dollar-drift) pairs: when `abs(dv) > portfolio_val_trade *
drift_band_trade`, the suggestion is appended to the buy list when
`dv < 0` and to the sell list otherwise.  Appending in iteration order is
realised as a right fold producing the same two lists. -/
def sug_fold (band V : ℚ) : List (String × ℚ) → List Sug × List Sug
  | [] => ([], [])
  | p :: rest =>
      let acc := sug_fold band V rest
      if |p.2| > V * band then
        if p.2 < 0 then (⟨"Buy", |p.2|, p.1⟩ :: acc.1, acc.2)
        else (acc.1, ⟨"Sell", |p.2|, p.1⟩ :: acc.2)
      else acc

/-- Source lines 215-225: the pair (buy suggestions, sell suggestions)
computed from a snapshot, a drift band and a portfolio value. -/
def trade_sugs (snap : List (String × ℚ)) (band V : ℚ) : List Sug × List Sug :=
  sug_fold band V (dollar_drift snap V)

/-- Python's round-half-to-even of a rational to an integer, the rounding
used by the `f"{x:,.0f}"` format of source line 221. -/
def roundHalfEven (q : ℚ) : ℤ :=
  let f := ⌊q⌋
  if q - f < 1/2 then f
  else if q - f > 1/2 then f + 1
  else if f % 2 = 0 then f else f + 1

/-- Thousands grouping of a digit list given least-significant digit
first: a comma is inserted after every third digit. -/
def commaGroupRev : List Char → List Char
  | [] => []
  | [a] => [a]
  | [a, b] => [a, b]
  | [a, b, c] => [a, b, c]
  | a :: b :: c :: d :: rest => a :: b :: c :: ',' :: commaGroupRev (d :: rest)

/-- The Python format `f"{x:,.0f}"` of source line 221 applied to a
non-negative rational: round half-to-even to a whole number and insert
thousands separators. -/
def usd0 (q : ℚ) : String :=
  String.mk ((commaGroupRev (Nat.toDigits 10 (roundHalfEven q).toNat).reverse).reverse)

/-- Source line 221: `line = f"{action} ${abs(dv):,.0f} {t}"`. -/
def fmt_line (s : Sug) : String :=
  s.action ++ " $" ++ usd0 s.amount ++ " " ++ s.ticker

/-- Source lines 216-225: the formatted buy lines, in iteration order. -/
def buy_actions (snap : List (String × ℚ)) (band V : ℚ) : List String :=
  ((trade_sugs snap band V).1).map fmt_line

/-- Source lines 216-225: the formatted sell lines, in iteration order. -/
def sell_actions (snap : List (String × ℚ)) (band V : ℚ) : List String :=
  ((trade_sugs snap band V).2).map fmt_line

/-- Source line 237: `combined_actions = "\n".join(buy_actions + sell_actions)`,
the downloadable artifact. -/
def combined_actions (snap : List (String × ℚ)) (band V : ℚ) : String :=
  String.intercalate "\n" (buy_actions snap band V ++ sell_actions snap band V)

/-- Source lines 131-140, `colour_for(val, band)`: the six-colour tier
classification feeding the drift-monitor bar chart. -/
def colour_for (val band : ℚ) : String :=
  if val ≥ 0 then
    if |val| > band then "firebrick"
    else if |val| > band * (1/2) then "tomato"
    else "lightsalmon"
  else
    if |val| > band then "midnightblue"
    else if |val| > band * (1/2) then "dodgerblue"
    else "lightskyblue"

/-- The six drift tiers named by the specification and by the legend of
source lines 158-165. -/
inductive Tier
  | BuyUrgent
  | BuyWatch
  | BuyMinor
  | SellUrgent
  | SellWatch
  | SellMinor
deriving DecidableEq

/-- Modelled from the spec: the tier classification of section 4.5 — for
`v ≥ 0` the sell side, tier urgent when `|v| > b`, watch when
`|v| > 0.5·b`, else minor; symmetrically on the buy side for `v < 0`. -/
def tierSpec (v b : ℚ) : Tier :=
  if v ≥ 0 then
    if |v| > b then Tier.SellUrgent
    else if |v| > (1/2) * b then Tier.SellWatch
    else Tier.SellMinor
  else
    if |v| > b then Tier.BuyUrgent
    else if |v| > (1/2) * b then Tier.BuyWatch
    else Tier.BuyMinor

/-- The colour attached to each tier by the legend of source lines 158-165. -/
def tierColour : Tier → String
  | Tier.BuyUrgent => "midnightblue"
  | Tier.BuyWatch => "dodgerblue"
  | Tier.BuyMinor => "lightskyblue"
  | Tier.SellUrgent => "firebrick"
  | Tier.SellWatch => "tomato"
  | Tier.SellMinor => "lightsalmon"

/-- Two decimal digits, zero-padded. -/
def pad2 (n : ℕ) : List Char :=
  if n < 10 then '0' :: Nat.toDigits 10 n else Nat.toDigits 10 n

/-- Modelled from the spec: the artifact line format of section 6,
"<amount, 2 decimals, thousands separator>" — the amount rounded
half-to-even to cents, rendered with a comma-grouped integer part, a
decimal point and exactly two decimal digits. -/
def usd2 (q : ℚ) : String :=
  let c := (roundHalfEven (q * 100)).toNat
  String.mk (((commaGroupRev (Nat.toDigits 10 (c / 100)).reverse).reverse)
    ++ '.' :: pad2 (c % 100))

/-- Modelled from the spec: a full artifact line
`"<Action> $<amount, 2 decimals, thousands separator> <Ticker>"`. -/
def specLine (a : String) (q : ℚ) (t : String) : String :=
  a ++ " $" ++ usd2 q ++ " " ++ t

/-- The concrete snapshot `{AAA: 0.6, BBB: 0.4, Cash: 0.0}` used by the
specification's worked examples (section 8). -/
def snap0 : List (String × ℚ) := [("AAA", 3/5), ("BBB", 2/5), ("Cash", 0)]

/-! Helper lemmas about association-list lookup. -/

theorem lookup_map_self {β : Type} (f : String → β) :
    ∀ (ks : List String) (t : String), t ∈ ks →
      (ks.map (fun s => (s, f s))).lookup t = some (f t) := by
  intro ks
  induction ks with
  | nil => intro t ht; cases ht
  | cons k ks ih =>
      intro t ht
      by_cases h : t = k
      · subst h
        simp [List.lookup]
      · have ht' : t ∈ ks := by
          rcases List.mem_cons.mp ht with h1 | h1
          · exact absurd h1 h
          · exact h1
        simpa [List.lookup, beq_eq_false_iff_ne.mpr h] using ih t ht'

theorem lookup_eq_none_of_not_mem {β : Type} :
    ∀ (l : List (String × β)) (t : String), t ∉ l.map Prod.fst →
      l.lookup t = none := by
  intro l
  induction l with
  | nil => intro t _; rfl
  | cons p l ih =>
      intro t ht
      have h1 : t ≠ p.1 := by
        intro he; exact ht (by simp [he])
      have h2 : t ∉ l.map Prod.fst := by
        intro hm; exact ht (by simp [hm])
      simpa [List.lookup, beq_eq_false_iff_ne.mpr h1] using ih t h2

theorem exists_lookup_of_mem {β : Type} :
    ∀ (l : List (String × β)) (t : String), t ∈ l.map Prod.fst →
      ∃ x, l.lookup t = some x := by
  intro l
  induction l with
  | nil => intro t ht; cases ht
  | cons p l ih =>
      intro t ht
      by_cases h : t = p.1
      · exact ⟨p.2, by simp [List.lookup, h]⟩
      · have ht' : t ∈ l.map Prod.fst := by
          rcases List.mem_cons.mp ht with h1 | h1
          · exact absurd h1 h
          · exact h1
        simpa [List.lookup, beq_eq_false_iff_ne.mpr h] using ih t ht'

theorem lookup_self_of_nodup {β : Type} :
    ∀ (l : List (String × β)), (l.map Prod.fst).Nodup →
      ∀ p ∈ l, l.lookup p.1 = some p.2 := by
  intro l
  induction l with
  | nil => intro _ p hp; cases hp
  | cons q l ih =>
      intro hnd p hp
      have hq : q.1 ∉ l.map Prod.fst := (List.nodup_cons.mp hnd).1
      rcases List.mem_cons.mp hp with h1 | h1
      · subst h1
        simp [List.lookup]
      · have hne : p.1 ≠ q.1 := by
          intro he
          exact hq (he ▸ List.mem_map.mpr ⟨p, h1, rfl⟩)
        simpa [List.lookup, beq_eq_false_iff_ne.mpr hne]
          using ih (List.nodup_cons.mp hnd).2 p h1

theorem eq_of_mem_nodup_keys {β : Type} :
    ∀ (l : List (String × β)), (l.map Prod.fst).Nodup →
      ∀ p ∈ l, ∀ q ∈ l, p.1 = q.1 → p = q := by
  intro l
  induction l with
  | nil => intro _ p hp; cases hp
  | cons r l ih =>
      intro hnd p hp q hq hpq
      have hr : r.1 ∉ l.map Prod.fst := (List.nodup_cons.mp hnd).1
      rcases List.mem_cons.mp hp with h1 | h1 <;> rcases List.mem_cons.mp hq with h2 | h2
      · rw [h1, h2]
      · exact absurd (hpq ▸ List.mem_map.mpr ⟨q, h2, rfl⟩) (h1 ▸ hr)
      · exact absurd ((hpq ▸ List.mem_map.mpr ⟨p, h1, rfl⟩ : q.1 ∈ l.map Prod.fst))
          (h2 ▸ hr)
      · exact ih (List.nodup_cons.mp hnd).2 p h1 q h2 hpq

/-! Helper lemmas about the suggestion fold and the derived key lists. -/

theorem keys_get_equal_weight_targets (ks : List String) :
    keys (get_equal_weight_targets ks) = ks := by
  simp only [keys, get_equal_weight_targets, List.map_map]
  exact List.map_id ks

theorem keys_dollar_drift (snap : List (String × ℚ)) (V : ℚ) :
    keys (dollar_drift snap V) = keys snap := by
  simp [keys, dollar_drift, List.map_map]

theorem keys_drift_vals (snap : List (String × ℚ)) :
    keys (drift_vals snap) = keys snap := by
  simp [keys, drift_vals, List.map_map]

theorem dollar_drift_eq_map (snap : List (String × ℚ)) (V : ℚ) :
    dollar_drift snap V = (drift_vals snap).map (fun p => (p.1, p.2 * V)) := by
  simp only [dollar_drift, drift_vals, List.map_map]
  rfl

theorem sug_fold_eq (band V : ℚ) (h : 0 ≤ V * band) (l : List (String × ℚ)) :
    sug_fold band V l =
      ((l.filter (fun p => decide (|p.2| > V * band) && decide (p.2 < 0))).map
          (fun p => ⟨"Buy", |p.2|, p.1⟩),
        (l.filter (fun p => decide (|p.2| > V * band) && decide (0 < p.2))).map
          (fun p => ⟨"Sell", |p.2|, p.1⟩)) := by
  induction l with
  | nil => rfl
  | cons p rest ih =>
      by_cases h1 : |p.2| > V * band
      · by_cases h2 : p.2 < 0
        · have h2' : ¬ (0 < p.2) := not_lt.mpr h2.le
          simp [sug_fold, ih, List.filter, h1, h2, h2']
        · have h2' : 0 < p.2 := by
            have hne : p.2 ≠ 0 := by
              intro he
              rw [he, abs_zero] at h1
              exact absurd (lt_of_le_of_lt h (by exact h1)) (lt_irrefl 0)
            exact lt_of_le_of_ne (not_lt.mp h2) (Ne.symm hne)
          simp [sug_fold, ih, List.filter, h1, h2, h2']
      · simp [sug_fold, ih, List.filter, h1]

theorem mem_sug_fold_fst (band V : ℚ) :
    ∀ (l : List (String × ℚ)), ∀ s ∈ (sug_fold band V l).1,
      ∃ q ∈ l, s = ⟨"Buy", |q.2|, q.1⟩ := by
  intro l
  induction l with
  | nil => intro s hs; cases hs
  | cons p rest ih =>
      intro s hs
      by_cases h1 : |p.2| > V * band
      · by_cases h2 : p.2 < 0
        · rw [sug_fold, if_pos h1, if_pos h2] at hs
          rcases List.mem_cons.mp hs with h3 | h3
          · exact ⟨p, List.mem_cons_self p rest, h3⟩
          · obtain ⟨q, hq, he⟩ := ih s h3
            exact ⟨q, List.mem_cons_of_mem p hq, he⟩
        · rw [sug_fold, if_pos h1, if_neg h2] at hs
          obtain ⟨q, hq, he⟩ := ih s hs
          exact ⟨q, List.mem_cons_of_mem p hq, he⟩
      · rw [sug_fold, if_neg h1] at hs
        obtain ⟨q, hq, he⟩ := ih s hs
        exact ⟨q, List.mem_cons_of_mem p hq, he⟩

theorem mem_sug_fold_snd (band V : ℚ) :
    ∀ (l : List (String × ℚ)), ∀ s ∈ (sug_fold band V l).2,
      ∃ q ∈ l, s = ⟨"Sell", |q.2|, q.1⟩ := by
  intro l
  induction l with
  | nil => intro s hs; cases hs
  | cons p rest ih =>
      intro s hs
      by_cases h1 : |p.2| > V * band
      · by_cases h2 : p.2 < 0
        · rw [sug_fold, if_pos h1, if_pos h2] at hs
          obtain ⟨q, hq, he⟩ := ih s hs
          exact ⟨q, List.mem_cons_of_mem p hq, he⟩
        · rw [sug_fold, if_pos h1, if_neg h2] at hs
          rcases List.mem_cons.mp hs with h3 | h3
          · exact ⟨p, List.mem_cons_self p rest, h3⟩
          · obtain ⟨q, hq, he⟩ := ih s h3
            exact ⟨q, List.mem_cons_of_mem p hq, he⟩
      · rw [sug_fold, if_neg h1] at hs
        obtain ⟨q, hq, he⟩ := ih s hs
        exact ⟨q, List.mem_cons_of_mem p hq, he⟩

theorem sum_map_ite_cash (c : ℚ) :
    ∀ ks : List String,
      (ks.map (fun t => if isCash t then (0:ℚ) else c)).sum =
        ((non_cash ks).length : ℚ) * c := by
  intro ks
  induction ks with
  | nil => simp [non_cash]
  | cons k ks ih =>
      by_cases h : isCash k
      · simp [non_cash, List.filter, h, ih]
      · rw [List.map_cons, List.sum_cons, if_neg h, ih]
        have : non_cash (k :: ks) = k :: non_cash ks := by
          simp [non_cash, List.filter, h]
        rw [this, List.length_cons]
        push_cast
        ring

/-! Concrete evaluations at the specification's worked example
`snap0 = {AAA: 0.6, BBB: 0.4, Cash: 0.0}`, `V = 10000`, `band = 0.02`. -/

theorem ev_keys_snap0 : keys snap0 = ["AAA", "BBB", "Cash"] := rfl

theorem ev_non_cash : non_cash ["AAA", "BBB", "Cash"] = ["AAA", "BBB"] := rfl

theorem ev_equal_wt : equal_wt ["AAA", "BBB", "Cash"] = 1/2 := by
  rw [equal_wt, ev_non_cash, if_neg (List.cons_ne_nil _ _)]
  norm_num

theorem ev_tA : targetVal ["AAA", "BBB", "Cash"] "AAA" = 1/2 := by
  rw [targetVal, show isCash "AAA" = false from rfl]
  simp [ev_equal_wt]

theorem ev_tB : targetVal ["AAA", "BBB", "Cash"] "BBB" = 1/2 := by
  rw [targetVal, show isCash "BBB" = false from rfl]
  simp [ev_equal_wt]

theorem ev_tC : targetVal ["AAA", "BBB", "Cash"] "Cash" = 0 := by
  rw [targetVal, show isCash "Cash" = true from rfl]
  simp

theorem ev_dollar_drift : dollar_drift snap0 10000 =
    [("AAA", 1000), ("BBB", -1000), ("Cash", 0)] := by
  rw [dollar_drift, ev_keys_snap0]
  simp only [snap0, List.map_cons, List.map_nil, ev_tA, ev_tB, ev_tC]
  norm_num

theorem ev_trade_sugs : trade_sugs snap0 (1/50) 10000 =
    ([⟨"Buy", 1000, "BBB"⟩], [⟨"Sell", 1000, "AAA"⟩]) := by
  rw [trade_sugs, ev_dollar_drift]
  norm_num [sug_fold]

theorem ev_usd0_1000 : usd0 1000 = "1,000" := by
  have h : roundHalfEven 1000 = 1000 := by norm_num [roundHalfEven]
  rw [usd0, h]
  rfl

theorem ev_buy_actions : buy_actions snap0 (1/50) 10000 = ["Buy $1,000 BBB"] := by
  rw [buy_actions, ev_trade_sugs]
  simp only [List.map_cons, List.map_nil, fmt_line]
  rw [ev_usd0_1000]
  rfl

theorem ev_sell_actions : sell_actions snap0 (1/50) 10000 = ["Sell $1,000 AAA"] := by
  rw [sell_actions, ev_trade_sugs]
  simp only [List.map_cons, List.map_nil, fmt_line]
  rw [ev_usd0_1000]
  rfl

/-! The spec-modelled two-decimal format always contains a decimal point,
while the code's format never does; these lemmas feed the C3
counterexample. -/

theorem dot_mem_usd2 (q : ℚ) : ('.' : Char) ∈ (usd2 q).data := by
  rw [usd2]
  exact List.mem_append_right _ (List.mem_cons_self _ _)

theorem dot_mem_specLine (a : String) (q : ℚ) (t : String) :
    ('.' : Char) ∈ (specLine a q t).data := by
  rw [specLine]
  simp [String.data_append, dot_mem_usd2]

/-- The target dict looks up to the extracted value function on every key
of the snapshot. -/
theorem lookup_targets (ks : List String) (t : String) (ht : t ∈ ks) :
    (get_equal_weight_targets ks).lookup t = some (targetVal ks t) :=
  lookup_map_self (fun s => if isCash s then 0 else equal_wt ks) ks t ht

/-- C1: for every snapshot (mapping ticker → weight), the equal-weight
target computation assigns `1 / N` to every non-cash ticker, where `N` is
the number of non-cash tickers, assigns exactly 0 to every ticker whose
name case-insensitively equals "cash", and on an empty or cash-only
snapshot yields the zero/empty mapping, totally (no division-by-zero or
other error is possible). -/
theorem C1_equal_weight_targets (ks : List String) (hnd : ks.Nodup) :
    (∀ t ∈ ks, isCash t = false →
        (get_equal_weight_targets ks).lookup t =
          some (1 / ((non_cash ks).length : ℚ)))
    ∧ (∀ t ∈ ks, isCash t = true →
        (get_equal_weight_targets ks).lookup t = some 0)
    ∧ (non_cash ks = [] → ∀ p ∈ get_equal_weight_targets ks, p.2 = 0)
    ∧ get_equal_weight_targets [] = [] := by
  refine ⟨?_, ?_, ?_, rfl⟩
  · intro t ht hc
    rw [lookup_targets ks t ht, targetVal, hc]
    have hmem : t ∈ non_cash ks := List.mem_filter.mpr ⟨ht, by simp [hc]⟩
    rw [if_neg (by simp), equal_wt, if_neg (List.ne_nil_of_mem hmem)]
  · intro t ht hc
    rw [lookup_targets ks t ht, targetVal, hc, if_pos rfl]
  · intro he p hp
    obtain ⟨t, _, rfl⟩ := List.mem_map.mp hp
    have : equal_wt ks = 0 := by rw [equal_wt, if_pos he]
    simp [this]

/-- Witness for C1 at the three-ticker snapshot of the spec's worked
example. -/
theorem C1_equal_weight_targets_witness :
    (["AAA", "BBB", "Cash"] : List String).Nodup ∧
    (∀ t ∈ (["AAA", "BBB", "Cash"] : List String), isCash t = false →
      (get_equal_weight_targets ["AAA", "BBB", "Cash"]).lookup t =
        some (1 / ((non_cash ["AAA", "BBB", "Cash"]).length : ℚ))) :=
  ⟨by decide, (C1_equal_weight_targets ["AAA", "BBB", "Cash"] (by decide)).1⟩

/-- C4: the values of the equal-weight target mapping sum to exactly 1
(over the rational embedding) when the snapshot has at least one non-cash
ticker, and to 0 when it has none. -/
theorem C4_targets_sum (ks : List String) (hnd : ks.Nodup) :
    (non_cash ks ≠ [] → ((get_equal_weight_targets ks).map Prod.snd).sum = 1)
    ∧ (non_cash ks = [] → ((get_equal_weight_targets ks).map Prod.snd).sum = 0) := by
  have hmap : (get_equal_weight_targets ks).map Prod.snd =
      ks.map (fun t => if isCash t then (0:ℚ) else equal_wt ks) := by
    simp [get_equal_weight_targets, List.map_map]
  constructor
  · intro hne
    rw [hmap, sum_map_ite_cash, equal_wt, if_neg hne]
    have hpos : 0 < (non_cash ks).length := List.length_pos.mpr hne
    have hlen : ((non_cash ks).length : ℚ) ≠ 0 :=
      Nat.cast_ne_zero.mpr (Nat.pos_iff_ne_zero.mp hpos)
    field_simp
  · intro he
    rw [hmap, sum_map_ite_cash, he]
    simp

/-- Witness for C4 at the spec's worked example: the targets of
`{AAA, BBB, Cash}` sum to 1. -/
theorem C4_targets_sum_witness :
    (["AAA", "BBB", "Cash"] : List String).Nodup ∧
    ((get_equal_weight_targets ["AAA", "BBB", "Cash"]).map Prod.snd).sum = 1 :=
  ⟨by decide, (C4_targets_sum ["AAA", "BBB", "Cash"] (by decide)).1
    (by rw [ev_non_cash]; simp)⟩

/-- C5: `colour_for` realises exactly the six-tier classification of the
spec — on the sell side (`v ≥ 0`) urgent when `|v| > b`, watch when
`|v| > 0.5·b`, else minor, and symmetrically on the buy side — composed
with the legend's tier-to-colour mapping; the spec's three worked
classifications hold. -/
theorem C5_tier_classification :
    (∀ v b : ℚ, colour_for v b = tierColour (tierSpec v b))
    ∧ tierSpec (3/100) (2/100) = Tier.SellUrgent
    ∧ tierSpec (-(11/1000)) (2/100) = Tier.BuyWatch
    ∧ tierSpec (5/1000) (2/100) = Tier.SellMinor := by
  refine ⟨?_, ?_, ?_, ?_⟩
  · intro v b
    unfold colour_for tierSpec
    rw [show b * (1/2) = (1/2) * b by ring]
    split_ifs <;> rfl
  · unfold tierSpec
    rw [abs_of_pos (show (0:ℚ) < 3/100 by norm_num)]
    norm_num
  · unfold tierSpec
    rw [abs_neg, abs_of_pos (show (0:ℚ) < 11/1000 by norm_num)]
    norm_num
  · unfold tierSpec
    rw [abs_of_pos (show (0:ℚ) < 5/1000 by norm_num)]
    norm_num

/-- C6: the needs-rebalance flag is true iff some ticker's absolute drift
strictly exceeds the threshold; the reference computation uses the
constant 0.02 and agrees with the same computation with the threshold
exposed as a parameter, instantiated at 0.02. -/
theorem C6_needs_rebalance (snap : List (String × ℚ)) (thr : ℚ) :
    needs_rebal snap = needs_rebal_with (2/100) snap
    ∧ (needs_rebal_with thr snap = true ↔
        ∃ p ∈ snap, |p.2 - targetVal (keys snap) p.1| > thr) := by
  refine ⟨rfl, ?_⟩
  rw [needs_rebal_with, List.any_eq_true]
  constructor
  · rintro ⟨q, hq, hgt⟩
    rw [decide_eq_true_eq] at hgt
    rw [drift_vals] at hq
    obtain ⟨p, hp, rfl⟩ := List.mem_map.mp hq
    exact ⟨p, hp, hgt⟩
  · rintro ⟨p, hp, hgt⟩
    refine ⟨(p.1, p.2 - targetVal (keys snap) p.1), ?_, ?_⟩
    · rw [drift_vals]
      exact List.mem_map.mpr ⟨p, hp, rfl⟩
    · rw [decide_eq_true_eq]
      exact hgt

/-- C8: the target, drift and trade-suggestion computations are pure
deterministic functions of their inputs: identical inputs yield identical
outputs. -/
theorem C8_pure_functions (ks1 ks2 : List String) (s1 s2 : List (String × ℚ))
    (b1 b2 V1 V2 : ℚ) (hk : ks1 = ks2) (hs : s1 = s2) (hb : b1 = b2)
    (hV : V1 = V2) :
    get_equal_weight_targets ks1 = get_equal_weight_targets ks2
    ∧ drift_vals s1 = drift_vals s2
    ∧ trade_sugs s1 b1 V1 = trade_sugs s2 b2 V2 := by
  subst hk hs hb hV
  exact ⟨rfl, rfl, rfl⟩

/-- Witness for C8 at concrete identical inputs. -/
theorem C8_pure_functions_witness :
    get_equal_weight_targets ["AAA", "BBB", "Cash"] =
      get_equal_weight_targets ["AAA", "BBB", "Cash"]
    ∧ drift_vals snap0 = drift_vals snap0
    ∧ trade_sugs snap0 (1/50) 10000 = trade_sugs snap0 (1/50) 10000 :=
  C8_pure_functions ["AAA", "BBB", "Cash"] ["AAA", "BBB", "Cash"] snap0 snap0
    (1/50) (1/50) 10000 10000 rfl rfl rfl rfl

/-- C2: for every snapshot, band ≥ 0 and portfolio value V > 0, a ticker
receives a suggestion exactly when `|(current − target) * V| > band * V`
(strictly, so drift exactly at the threshold yields none); the action is
"Buy" for negative dollar drift and "Sell" for positive, and the amount
is the absolute dollar drift — stated as the complete filter/map
characterisation of the two suggestion lists, plus the strict lower bound
on every emitted amount. -/
theorem C2_trade_suggestions (snap : List (String × ℚ)) (band V : ℚ)
    (hb : 0 ≤ band) (hV : 0 < V) :
    trade_sugs snap band V =
      (((dollar_drift snap V).filter
          (fun p => decide (|p.2| > band * V) && decide (p.2 < 0))).map
          (fun p => (⟨"Buy", |p.2|, p.1⟩ : Sug)),
        ((dollar_drift snap V).filter
          (fun p => decide (|p.2| > band * V) && decide (0 < p.2))).map
          (fun p => (⟨"Sell", |p.2|, p.1⟩ : Sug)))
    ∧ (∀ s ∈ (trade_sugs snap band V).1 ++ (trade_sugs snap band V).2,
        band * V < s.amount) := by
  have h0 : 0 ≤ V * band := mul_nonneg hV.le hb
  have hchar := sug_fold_eq band V h0 (dollar_drift snap V)
  constructor
  · simp only [mul_comm band V]
    exact hchar
  · intro s hs
    rw [List.mem_append, trade_sugs, hchar] at hs
    rcases hs with hs | hs
    · obtain ⟨q, hq, rfl⟩ := List.mem_map.mp hs
      have hf := (List.mem_filter.mp hq).2
      simp only [Bool.and_eq_true, decide_eq_true_eq] at hf
      rw [mul_comm band V]
      exact hf.1
    · obtain ⟨q, hq, rfl⟩ := List.mem_map.mp hs
      have hf := (List.mem_filter.mp hq).2
      simp only [Bool.and_eq_true, decide_eq_true_eq] at hf
      rw [mul_comm band V]
      exact hf.1

/-- Witness for C2 at the spec's worked example: every suggestion for
`snap0` with band 0.02 and value 10000 exceeds the 200-dollar threshold. -/
theorem C2_trade_suggestions_witness :
    ((0:ℚ) ≤ 1/50) ∧ ((0:ℚ) < 10000) ∧
    (∀ s ∈ (trade_sugs snap0 (1/50) 10000).1 ++ (trade_sugs snap0 (1/50) 10000).2,
      (1/50 : ℚ) * 10000 < s.amount) :=
  ⟨by norm_num, by norm_num,
    (C2_trade_suggestions snap0 (1/50) 10000 (by norm_num) (by norm_num)).2⟩

/-- C9: every emitted suggestion's amount strictly exceeds `band * V`
(hence is positive), and the tickers of the combined buy-and-sell list
are pairwise distinct — each ticker yields at most one suggestion and no
ticker is both bought and sold. -/
theorem C9_suggestion_invariants (snap : List (String × ℚ)) (band V : ℚ)
    (hb : 0 ≤ band) (hV : 0 < V) (hnd : (keys snap).Nodup) :
    (∀ s ∈ (trade_sugs snap band V).1 ++ (trade_sugs snap band V).2,
        band * V < s.amount ∧ 0 < s.amount)
    ∧ (((trade_sugs snap band V).1 ++ (trade_sugs snap band V).2).map
        Sug.ticker).Nodup := by
  have h0 : 0 ≤ V * band := mul_nonneg hV.le hb
  have hchar := sug_fold_eq band V h0 (dollar_drift snap V)
  have hndl : ((dollar_drift snap V).map Prod.fst).Nodup := by
    have h := keys_dollar_drift snap V
    rw [keys] at h
    rw [h]
    exact hnd
  constructor
  · intro s hs
    rw [List.mem_append, trade_sugs, hchar] at hs
    have hband : 0 ≤ band * V := mul_nonneg hb hV.le
    rcases hs with hs | hs
    · obtain ⟨q, hq, rfl⟩ := List.mem_map.mp hs
      have hf := (List.mem_filter.mp hq).2
      simp only [Bool.and_eq_true, decide_eq_true_eq] at hf
      have h1 : band * V < |q.2| := by rw [mul_comm]; exact hf.1
      exact ⟨h1, lt_of_le_of_lt hband h1⟩
    · obtain ⟨q, hq, rfl⟩ := List.mem_map.mp hs
      have hf := (List.mem_filter.mp hq).2
      simp only [Bool.and_eq_true, decide_eq_true_eq] at hf
      have h1 : band * V < |q.2| := by rw [mul_comm]; exact hf.1
      exact ⟨h1, lt_of_le_of_lt hband h1⟩
  · have key : (((trade_sugs snap band V).1 ++ (trade_sugs snap band V).2).map
        Sug.ticker) =
        ((dollar_drift snap V).filter
          (fun p => decide (|p.2| > V * band) && decide (p.2 < 0))).map Prod.fst
        ++ ((dollar_drift snap V).filter
          (fun p => decide (|p.2| > V * band) && decide (0 < p.2))).map Prod.fst := by
      simp only [List.map_append, trade_sugs, hchar, List.map_map]
      rfl
    rw [key]
    refine List.nodup_append.mpr ⟨?_, ?_, ?_⟩
    · exact List.Nodup.sublist
        (List.Sublist.map Prod.fst (List.filter_sublist _)) hndl
    · exact List.Nodup.sublist
        (List.Sublist.map Prod.fst (List.filter_sublist _)) hndl
    · intro a ha1 ha2
      obtain ⟨p, hpf, rfl⟩ := List.mem_map.mp ha1
      obtain ⟨q, hqf, hpq⟩ := List.mem_map.mp ha2
      have hp := List.mem_filter.mp hpf
      have hq := List.mem_filter.mp hqf
      have hpq2 : p = q := eq_of_mem_nodup_keys _ hndl p hp.1 q hq.1 hpq.symm
      have hp2 := hp.2
      have hq2 := hq.2
      simp only [Bool.and_eq_true, decide_eq_true_eq] at hp2 hq2
      rw [hpq2] at hp2
      exact absurd hq2.2 (not_lt.mpr hp2.2.le)

/-- Witness for C9 at the spec's worked example. -/
theorem C9_suggestion_invariants_witness :
    ((0:ℚ) ≤ 1/50) ∧ ((0:ℚ) < 10000) ∧
    (((trade_sugs snap0 (1/50) 10000).1 ++ (trade_sugs snap0 (1/50) 10000).2).map
      Sug.ticker).Nodup :=
  ⟨by norm_num, by norm_num,
    (C9_suggestion_invariants snap0 (1/50) 10000 (by norm_num) (by norm_num)
      (by rw [ev_keys_snap0]; decide)).2⟩

theorem exists_dollar_gt_iff (snap : List (String × ℚ)) (V c : ℚ) (hV : 0 < V) :
    (∃ p ∈ dollar_drift snap V, |p.2| > V * c) ↔
      ∃ q ∈ drift_vals snap, |q.2| > c := by
  rw [dollar_drift_eq_map]
  constructor
  · rintro ⟨p, hp, hgt⟩
    obtain ⟨q, hq, rfl⟩ := List.mem_map.mp hp
    refine ⟨q, hq, ?_⟩
    rw [show ((fun p => (p.1, p.2 * V)) q).2 = q.2 * V from rfl, abs_mul,
      abs_of_pos hV, mul_comm V c] at hgt
    exact (mul_lt_mul_right hV).mp hgt
  · rintro ⟨q, hq, hgt⟩
    refine ⟨(q.1, q.2 * V), List.mem_map.mpr ⟨q, hq, rfl⟩, ?_⟩
    rw [show ((q.1, q.2 * V) : String × ℚ).2 = q.2 * V from rfl, abs_mul,
      abs_of_pos hV, mul_comm V c]
    exact (mul_lt_mul_right hV).mpr hgt

theorem sug_union_ne_nil_iff (snap : List (String × ℚ)) (band V : ℚ)
    (h : 0 < V * band) :
    ((trade_sugs snap band V).1 ≠ [] ∨ (trade_sugs snap band V).2 ≠ []) ↔
      ∃ p ∈ dollar_drift snap V, |p.2| > V * band := by
  rw [trade_sugs, sug_fold_eq band V h.le]
  simp only [ne_eq, List.map_eq_nil_iff, List.filter_eq_nil_iff, Bool.and_eq_true,
    decide_eq_true_eq]
  push_neg
  constructor
  · rintro (⟨p, hp, hgt, _⟩ | ⟨p, hp, hgt, _⟩) <;> exact ⟨p, hp, hgt⟩
  · rintro ⟨p, hp, hgt⟩
    have hne : p.2 ≠ 0 := by
      intro he
      rw [he, abs_zero] at hgt
      exact absurd hgt (asymm h)
    rcases hne.lt_or_lt with hneg | hpos
    · exact Or.inl ⟨p, hp, hgt, hneg⟩
    · exact Or.inr ⟨p, hp, hgt, hpos⟩

/-- C10: the needs-rebalance flag (threshold 0.02) is true exactly when
the trade-suggestion computation on the same snapshot with band 0.02 and
portfolio value V > 0 emits at least one suggestion. -/
theorem C10_needs_rebal_iff (snap : List (String × ℚ)) (V : ℚ) (hV : 0 < V) :
    needs_rebal snap = true ↔
      ((trade_sugs snap (2/100) V).1 ≠ [] ∨ (trade_sugs snap (2/100) V).2 ≠ []) := by
  have h : 0 < V * (2/100) := by positivity
  rw [sug_union_ne_nil_iff snap (2/100) V h, exists_dollar_gt_iff snap V (2/100) hV]
  simp [needs_rebal, List.any_eq_true]

/-- Witness for C10 at the spec's worked example. -/
theorem C10_needs_rebal_iff_witness :
    ((0:ℚ) < 10000) ∧
    (needs_rebal snap0 = true ↔
      ((trade_sugs snap0 (2/100) 10000).1 ≠ [] ∨
        (trade_sugs snap0 (2/100) 10000).2 ≠ [])) :=
  ⟨by norm_num, C10_needs_rebal_iff snap0 10000 (by norm_num)⟩

/-- C3 counterexample: the claim that every artifact line carries the
amount with two decimals fails on the worked example — the line the code
emits for the 1000-dollar sell is "Sell $1,000 AAA" (the `:,.0f` format
has zero decimals), which matches no two-decimal spec line. -/
theorem C3_two_decimals_counterexample :
    ¬ (∀ L ∈ buy_actions snap0 (1/50) 10000 ++ sell_actions snap0 (1/50) 10000,
        ∃ a q t, L = specLine a q t) := by
  intro h
  have hsell : "Sell $1,000 AAA" ∈
      buy_actions snap0 (1/50) 10000 ++ sell_actions snap0 (1/50) 10000 := by
    rw [ev_buy_actions, ev_sell_actions]
    simp
  obtain ⟨a, q, t, he⟩ := h _ hsell
  have hdot : ('.' : Char) ∈ ("Sell $1,000 AAA").data := by
    rw [he]
    exact dot_mem_specLine a q t
  exact absurd hdot (by decide)

/-- C3 as amended: every line of the artifact is
`"<Action> $<amount, 0 decimals (rounded half-to-even), thousands
separator> <Ticker>"` for a snapshot entry (one suggestion per line), the
combined artifact joins Buy lines before Sell lines, and the format
groups thousands with commas — for example 1234567.5 dollars renders as
"1,234,568". -/
theorem C3_artifact_lines (snap : List (String × ℚ)) (band V : ℚ) :
    combined_actions snap band V =
      String.intercalate "\n" (buy_actions snap band V ++ sell_actions snap band V)
    ∧ (∀ L ∈ buy_actions snap band V, ∃ p ∈ snap,
        L = "Buy" ++ " $" ++ usd0 |(p.2 - targetVal (keys snap) p.1) * V| ++ " " ++ p.1)
    ∧ (∀ L ∈ sell_actions snap band V, ∃ p ∈ snap,
        L = "Sell" ++ " $" ++ usd0 |(p.2 - targetVal (keys snap) p.1) * V| ++ " " ++ p.1)
    ∧ usd0 (1234567 + 1/2) = "1,234,568" := by
  refine ⟨rfl, ?_, ?_, ?_⟩
  · intro L hL
    rw [buy_actions] at hL
    obtain ⟨s, hs, rfl⟩ := List.mem_map.mp hL
    obtain ⟨q, hq, rfl⟩ := mem_sug_fold_fst band V (dollar_drift snap V) s hs
    rw [dollar_drift] at hq
    obtain ⟨p, hp, rfl⟩ := List.mem_map.mp hq
    exact ⟨p, hp, rfl⟩
  · intro L hL
    rw [sell_actions] at hL
    obtain ⟨s, hs, rfl⟩ := List.mem_map.mp hL
    obtain ⟨q, hq, rfl⟩ := mem_sug_fold_snd band V (dollar_drift snap V) s hs
    rw [dollar_drift] at hq
    obtain ⟨p, hp, rfl⟩ := List.mem_map.mp hq
    exact ⟨p, hp, rfl⟩
  · have h : roundHalfEven (1234567 + 1/2) = 1234568 := by
      norm_num [roundHalfEven]
    rw [usd0, h]
    rfl

/-- C7 counterexample: pandas alignment does not treat a label missing on
one side as weight 0 — on the snapshot `{AAA: 0.5}` against the empty
target Series, the drift entry for AAA is NaN (`none`), not `0.5 − 0`. -/
theorem C7_missing_key_counterexample :
    ¬ (∀ (a b : List (String × ℚ)), ∀ k ∈ keys a, k ∉ keys b →
        (seriesSub a b).lookup k = some (some ((a.lookup k).getD 0 - 0))) := by
  intro h
  have h1 := h [("AAA", (1:ℚ)/2)] [] "AAA" (by simp [keys]) (by simp [keys])
  have h2 : (seriesSub [("AAA", (1:ℚ)/2)] []).lookup "AAA" = some none := rfl
  rw [h2] at h1
  simp at h1

/-- C7 as amended: drift is an elementwise subtraction over the union of
the two key sets and never raises an error; a ticker present on only one
side yields an undefined (NaN) drift value rather than an implicit 0; in
this program the target mapping is built from the snapshot's own key
set, so every drift entry is defined and equals current − target. -/
theorem C7_drift_alignment (a b snap : List (String × ℚ))
    (hnd : (keys snap).Nodup) :
    keys (seriesSub a b) = keyUnion a b
    ∧ (∀ k ∈ keys a, k ∉ keys b → (seriesSub a b).lookup k = some none)
    ∧ (∀ k ∈ keys b, k ∉ keys a → (seriesSub a b).lookup k = some none)
    ∧ (∀ p ∈ snap,
        (seriesSub snap (get_equal_weight_targets (keys snap))).lookup p.1 =
          some (some (p.2 - targetVal (keys snap) p.1))) := by
  refine ⟨?_, ?_, ?_, ?_⟩
  · simp only [keys, seriesSub, List.map_map]
    exact List.map_id _
  · intro k hk hnb
    have hku : k ∈ keyUnion a b := List.mem_append_left _ hk
    rw [seriesSub, lookup_map_self _ (keyUnion a b) k hku]
    obtain ⟨x, hx⟩ := exists_lookup_of_mem a k hk
    rw [hx, lookup_eq_none_of_not_mem b k hnb]
  · intro k hk hna
    have hku : k ∈ keyUnion a b := by
      refine List.mem_append_right _ (List.mem_filter.mpr ⟨hk, ?_⟩)
      simp [keys] at hna ⊢
      exact hna
    rw [seriesSub, lookup_map_self _ (keyUnion a b) k hku]
    rw [lookup_eq_none_of_not_mem a k hna]
  · intro p hp
    have hkeys : keys (get_equal_weight_targets (keys snap)) = keys snap :=
      keys_get_equal_weight_targets _
    have hfilter : (keys (get_equal_weight_targets (keys snap))).filter
        (fun k => !(keys snap).contains k) = [] := by
      rw [hkeys, List.filter_eq_nil_iff]
      intro x hx
      simp [hx]
    have hku : keyUnion snap (get_equal_weight_targets (keys snap)) = keys snap := by
      rw [keyUnion, hfilter, List.append_nil]
    have hpk : p.1 ∈ keys snap := List.mem_map.mpr ⟨p, hp, rfl⟩
    rw [seriesSub, hku, lookup_map_self _ (keys snap) p.1 hpk]
    rw [lookup_self_of_nodup snap hnd p hp]
    rw [lookup_targets (keys snap) p.1 hpk]

/-- Witness for C7 (amended) at the spec's worked example snapshot. -/
theorem C7_drift_alignment_witness :
    (keys snap0).Nodup ∧
    (∀ p ∈ snap0,
      (seriesSub snap0 (get_equal_weight_targets (keys snap0))).lookup p.1 =
        some (some (p.2 - targetVal (keys snap0) p.1))) :=
  ⟨by rw [ev_keys_snap0]; decide,
    (C7_drift_alignment [] [] snap0 (by rw [ev_keys_snap0]; decide)).2.2.2⟩

end PortfolioDashboard
